import Mathlib

/-!
Verification of the cryptobot repository (`src/exchange_utils.py`, `src/pump.py`).

The exchange itself is external: every place the Python code calls the ccxt
client, the embedding takes the outcome of that call from an explicit
environment function (`Nat → CallOutcome α`, `Nat → OrderOutcome`, balance
streams `Nat → ℚ`, interrupt streams `Nat → Bool`).  Quantities, prices and
percentages are rationals; `math.floor` becomes `Int.floor`.  Loops that the
Python code runs without a bound are embedded with an explicit `fuel`
argument counting how many iterations are examined; returning the
`stillRunning` / `none` marker at fuel `0` means the loop had not terminated
within that many iterations.
-/

namespace Cryptobot

/-- Outcome of one invocation of a function wrapped by `retry_on_exception`
(src/exchange_utils.py lines 8-21): the call can return a value, raise a
transient ccxt error (`ccxt.NetworkError` or `ccxt.ExchangeError`, caught at
line 14), or raise a non-transient error, which line 14 does not catch. -/
inductive CallOutcome (α : Type) where
  | success (v : α)
  | transient
  | nonTransient
deriving DecidableEq, Repr

/-- Result of one call of the wrapped function: the wrapped function's value,
the `None` sentinel returned at line 19 after the retry budget is exhausted,
or an uncaught exception propagating out of the wrapper. -/
inductive RetryResult (α : Type) where
  | value (v : α)
  | noneSentinel
  | propagated
deriving DecidableEq, Repr

/-- A run of the retry wrapper: its result, how many times the wrapped
function was invoked, and the total time spent in `sleep(timeout)` calls. -/
structure RetryRun (α : Type) where
  result : RetryResult α
  calls : Nat
  slept : ℚ
deriving DecidableEq, Repr

/-- The `for _ in range(retries)` loop of `retry_on_exception`
(src/exchange_utils.py lines 11-19).  `f i` is the outcome of the `i`-th
invocation of the wrapped function; the second argument is the number of
loop iterations left.  A transient error is printed, slept on for `timeout`
seconds, and retried; a success returns at once; a non-transient error
propagates; when the budget runs out the wrapper returns `None`. -/
def retryGo (timeout : ℚ) (f : Nat → CallOutcome α) (i : Nat) : Nat → RetryRun α
  | 0 => ⟨RetryResult.noneSentinel, 0, 0⟩
  | n + 1 =>
    match f i with
    | CallOutcome.success v => ⟨RetryResult.value v, 1, 0⟩
    | CallOutcome.nonTransient => ⟨RetryResult.propagated, 1, 0⟩
    | CallOutcome.transient =>
      let r := retryGo timeout f (i + 1) n
      ⟨r.result, r.calls + 1, r.slept + timeout⟩

/-- `retry_on_exception(timeout, retries)` applied to a function whose
`i`-th invocation has outcome `f i` (src/exchange_utils.py lines 8-21).
The source default for `retries` is 10. -/
def retry_on_exception (timeout : ℚ) (retries : Nat) (f : Nat → CallOutcome α) : RetryRun α :=
  retryGo timeout f 0 retries

/-- The `retries` default of `retry_on_exception` (src/exchange_utils.py line 8). -/
def retry_default_retries : Nat := 10

/-- Outcome of one `exchange.create_*_order` attempt inside `buy` /
`limit_buy` (src/exchange_utils.py lines 86-125): the order is placed, or the
exchange raises `ccxt.InsufficientFunds`, an exception whose class is exactly
`ccxt.ExchangeError`, or a `ccxt.NetworkError`. -/
inductive OrderOutcome where
  | placed
  | insufficientFunds
  | exchangeError
  | networkError
deriving DecidableEq, Repr

/-- The amount adjustment `buy` applies after a failed attempt
(src/exchange_utils.py lines 92-99): on `InsufficientFunds` (line 94) and on
an exception whose class name is exactly `ExchangeError` (line 99) the amount
is multiplied by 0.99 when `auto_adjust` is set; a `NetworkError` leaves the
amount unchanged. -/
def buyStepDown (auto_adjust : Bool) : OrderOutcome → ℚ → ℚ
  | OrderOutcome.insufficientFunds, a => if auto_adjust then a * (99 / 100) else a
  | OrderOutcome.exchangeError, a => if auto_adjust then a * (99 / 100) else a
  | _, a => a

/-- The amount adjustment `limit_buy` applies after a failed attempt
(src/exchange_utils.py lines 118-120): only an exception whose class name is
exactly `ExchangeError` triggers the 0.99 step-down (so `InsufficientFunds`,
a subclass, is retried without adjustment), and only when `auto_adjust`. -/
def limitBuyStepDown (auto_adjust : Bool) : OrderOutcome → ℚ → ℚ
  | OrderOutcome.exchangeError, a => if auto_adjust then a * (99 / 100) else a
  | _, a => a

/-- The `while not buy_placed` retry loop shared by `buy`
(src/exchange_utils.py lines 89-103) and `limit_buy` (lines 112-124),
parametrised by the step-down policy of the failure handlers.  `env i` is the
outcome of the `i`-th order attempt; `fuel` bounds how many attempts are
examined.  Returns the list of amounts submitted to the exchange, in order,
and `some amount` for the amount of the order finally placed (`none` when the
loop was still retrying after `fuel` attempts). -/
def orderLoop (step : OrderOutcome → ℚ → ℚ) (env : Nat → OrderOutcome) :
    ℚ → Nat → Nat → List ℚ × Option ℚ
  | _, _, 0 => ([], none)
  | amount, i, fuel + 1 =>
    match env i with
    | OrderOutcome.placed => ([amount], some amount)
    | o =>
      let r := orderLoop step env (step o amount) (i + 1) fuel
      (amount :: r.1, r.2)

/-- The initial order quantity of `buy` (src/exchange_utils.py line 87):
`floor(fetch_balance(pair) * (pair_percent/100) / fetch_ticker(ticker)['last'])`.
`limit_buy` (line 110) uses the same formula with its explicit `price`
argument in place of the last traded price. -/
def buyAmount (pairBalance pair_percent lastPrice : ℚ) : ℤ :=
  ⌊pairBalance * (pair_percent / 100) / lastPrice⌋

/-- `buy(ticker, pair_percent, pair, auto_adjust)` (src/exchange_utils.py
lines 86-104): computes the floored initial amount, then runs the market-buy
retry loop with the `buy` step-down policy. -/
def buy (pairBalance pair_percent lastPrice : ℚ) (env : Nat → OrderOutcome)
    (auto_adjust : Bool) (fuel : Nat) : List ℚ × Option ℚ :=
  orderLoop (buyStepDown auto_adjust) env
    ((buyAmount pairBalance pair_percent lastPrice : ℤ) : ℚ) 0 fuel

/-- `limit_buy(ticker, pair_percent, price, pair, auto_adjust)`
(src/exchange_utils.py lines 109-125): the floored initial amount with the
explicit price, then the retry loop with the `limit_buy` step-down policy. -/
def limit_buy (pairBalance pair_percent price : ℚ) (env : Nat → OrderOutcome)
    (auto_adjust : Bool) (fuel : Nat) : List ℚ × Option ℚ :=
  orderLoop (limitBuyStepDown auto_adjust) env
    ((buyAmount pairBalance pair_percent price : ℤ) : ℚ) 0 fuel

/-- The quantity `sell` submits with its market sell order
(src/exchange_utils.py line 62): `floor(fetch_balance(ticker) * (percent/100))`. -/
def sell_order_amount (tickerBalance percent : ℚ) : ℤ :=
  ⌊tickerBalance * (percent / 100)⌋

/-- The quantity `limit_sell` submits with its limit sell order
(src/exchange_utils.py line 72): the same floored formula as `sell`. -/
def limit_sell_order_amount (tickerBalance percent : ℚ) : ℤ :=
  ⌊tickerBalance * (percent / 100)⌋

/-- The amount the order retry loop holds just before attempt `j`, obtained
by folding the step-down policy over the outcomes of the earlier attempts. -/
def amountAt (step : OrderOutcome → ℚ → ℚ) (env : Nat → OrderOutcome) (a : ℚ) : Nat → ℚ
  | 0 => a
  | j + 1 => step (env j) (amountAt step env a j)

/-- A rational is a whole number when it equals its own floor, the shape every
quantity has right after a `floor(...)` truncation. -/
def wholeNumber (q : ℚ) : Prop := ((⌊q⌋ : ℤ) : ℚ) = q

/-- Exchange-facing actions of the staged-selling loop of `main`
(src/pump.py lines 30-46), in the order the loop performs them. -/
inductive Action where
  | limitSellOrder (percent price : ℚ)
  | wait (seconds : ℚ)
  | cancelLast
  | cancelAll
  | marketSellOrder (percent : ℚ)
deriving DecidableEq, Repr

/-- How an examined run of the staged-selling loop ended: the `while` condition
became false (everything sold), the interrupt handler ran, or the loop was
still running after the examined number of iterations. -/
inductive LoopOutcome where
  | soldEverything
  | interrupted
  | stillRunning
deriving DecidableEq, Repr

/-- Modelled from the spec: the `sell(symbol, 100, sell_price, auto_adjust=True)`
called at src/pump.py line 33 is not among the files under src/ (the `sell` of
src/exchange_utils.py takes no price argument); spec §4.3 step 2 reads it as
placing a limit sell for 100% of the current balance at `sell_price`. -/
def pumpLimitSell (percent price : ℚ) : Action := Action.limitSellOrder percent price

/-- Modelled from the spec: `cancel(sell_order)` at src/pump.py line 39 is not
under src/; spec §4.3 step 4 reads it as cancelling the just-placed sell
order, whether or not it filled. -/
def pumpCancelStep : Action := Action.cancelLast

/-- Modelled from the spec: `cancel_orders(ticker)` at src/pump.py line 42 is
not under src/; spec §4.3 reads it as cancelling all open orders for the
ticker. -/
def pumpCancelAll : Action := Action.cancelAll

/-- Modelled from the spec: the final `sell(symbol, 100, auto_adjust=True)` at
src/pump.py line 43 is not under src/; spec §4.3 reads it as one market sell
for 100% of the remaining balance. -/
def pumpMarketSell (percent : ℚ) : Action := Action.marketSellOrder percent

/-- The staged-selling loop of `main` (src/pump.py lines 30-46).  `price` is
the entry price and `sc` the current `sell_change`.  `balance n` is the total
ticker balance the `n`-th evaluation of the `while` condition observes
(modelled from the spec: `get_balance(ticker, 'total')` at line 31 is not
under src/; spec §4.3 reads it as the remaining ticker balance).
`interrupt n` is true when a KeyboardInterrupt or EOFError arrives during
iteration `n`'s body, in which case the handler of lines 41-46 cancels the
ticker's open orders and market-sells 100% of the remaining balance.  `fuel`
bounds how many iterations are examined. -/
def pumpGo (price step_change time_interval : ℚ) (balance : Nat → ℚ)
    (interrupt : Nat → Bool) : ℚ → Nat → Nat → List Action × LoopOutcome
  | _, _, 0 => ([], LoopOutcome.stillRunning)
  | sc, n, fuel + 1 =>
    if 0 < balance n then
      if interrupt n then
        ([pumpCancelAll, pumpMarketSell 100], LoopOutcome.interrupted)
      else
        let r := pumpGo price step_change time_interval balance interrupt
          (sc - step_change) (n + 1) fuel
        (pumpLimitSell 100 (price * (1 + sc / 100)) :: Action.wait time_interval ::
          pumpCancelStep :: r.1, r.2)
    else ([], LoopOutcome.soldEverything)

/-- The staged-selling loop as entered by `main`: `sell_change` starts at
`sell_percent + change_before` (src/pump.py line 28). -/
def pumpLoop (price sell_percent change_before step_change time_interval : ℚ)
    (balance : Nat → ℚ) (interrupt : Nat → Bool) (fuel : Nat) :
    List Action × LoopOutcome :=
  pumpGo price step_change time_interval balance interrupt
    (sell_percent + change_before) 0 fuel

/-- The `sell_change` value iteration `n` of the loop uses: it is set to
`sell_percent + change_before` before the loop (src/pump.py line 28) and
decremented by `step_change` at the end of every iteration (line 40). -/
def sellChangeAt (sell_percent change_before step_change : ℚ) (n : Nat) : ℚ :=
  sell_percent + change_before - n * step_change

/-- The action trace finishes with the interrupt handler of src/pump.py lines
41-46: cancel all open orders of the ticker, then one market sell of 100% of
the remaining balance. -/
def endsWithInterruptHandler (l : List Action) : Prop :=
  ∃ pre, l = pre ++ [pumpCancelAll, pumpMarketSell 100]

/-- The action trace contains, as its `n`-th three-action group, the body of
iteration `n` of the staged-selling loop (src/pump.py lines 32-39): a limit
sell of 100% at the given price, a sleep of `time_interval` seconds, and the
cancellation of the just-placed order. -/
def hasIterationBlock (l : List Action) (n : Nat) (sellPrice time_interval : ℚ) : Prop :=
  ∃ pre rest, l = pre ++ (pumpLimitSell 100 sellPrice :: Action.wait time_interval ::
    pumpCancelStep :: rest) ∧ pre.length = 3 * n

/-- One `balances.pop(key, None)` call of `fetch_nonzero_balances` /
`find_dust` (src/exchange_utils.py lines 35-38 and 208-211) on a balance
mapping represented as an association list. -/
def popKey (k : String) (bs : List (String × ℚ)) : List (String × ℚ) :=
  bs.filter fun b => b.1 ≠ k

/-- The four pops shared by `fetch_nonzero_balances` (src/exchange_utils.py
lines 35-38) and `find_dust` (lines 208-211): remove ETH, BTC, USDT and BNB
from the total-balance mapping. -/
def dropPairAssets (bs : List (String × ℚ)) : List (String × ℚ) :=
  popKey "BNB" (popKey "USDT" (popKey "BTC" (popKey "ETH" bs)))

/-- `fetch_nonzero_balances()` (src/exchange_utils.py lines 32-39) applied to
the account's total balance mapping: after the four pops, the tickers whose
total balance is at least 1. -/
def fetch_nonzero_balances (total : List (String × ℚ)) : List String :=
  ((dropPairAssets total).filter fun b => 1 ≤ b.2).map Prod.fst

/-- `find_dust()` (src/exchange_utils.py lines 206-212: the body as written,
its `def` line missing the colon) applied to the account's total balance
mapping: after the same four pops, the tickers whose total balance is below
1. -/
def find_dust (total : List (String × ℚ)) : List String :=
  ((dropPairAssets total).filter fun b => b.2 < 1).map Prod.fst

/-- Errors of the Python runtime the embedding tracks. -/
inductive PyError where
  | zeroDivisionError
deriving DecidableEq, Repr

/-- Python's `/` on numbers: raises ZeroDivisionError when the divisor is
zero, unlike Lean's total division. -/
def pyDiv (a b : ℚ) : Except PyError ℚ :=
  if b = 0 then Except.error PyError.zeroDivisionError else Except.ok (a / b)

/-- `buy_tickers(tickers, pair)` (src/exchange_utils.py lines 130-132):
`pair_percentage = 100 / len(tickers)`, then one `buy` per ticker at that
percentage.  Each buy is represented by the initial quantity it submits,
`buyAmount` of the pair balance, the shared percentage and the ticker's last
price. -/
def buy_tickers (tickers : List String) (pairBalance : ℚ) (lastPrice : String → ℚ) :
    Except PyError (List (String × ℤ)) :=
  match pyDiv 100 (tickers.length : ℚ) with
  | Except.error e => Except.error e
  | Except.ok pct =>
    Except.ok (tickers.map fun t => (t, buyAmount pairBalance pct (lastPrice t)))

-- ===== lemmas =====

lemma retryGo_success (timeout : ℚ) (f : Nat → CallOutcome α) (v : α) :
    ∀ (k : Nat) (i n : Nat), (∀ j, j < k → f (i + j) = CallOutcome.transient) →
      f (i + k) = CallOutcome.success v → k < n →
      retryGo timeout f i n = ⟨RetryResult.value v, k + 1, k * timeout⟩ := by
  intro k
  induction k with
  | zero =>
    intro i n _ hs hn
    match n, hn with
    | m + 1, _ =>
      simp only [retryGo]
      rw [show i + 0 = i from rfl] at hs
      rw [hs]
      norm_num
  | succ k ih =>
    intro i n ht hs hn
    match n, hn with
    | m + 1, hn =>
      have h0 : f i = CallOutcome.transient := by
        have := ht 0 (Nat.succ_pos k)
        simpa using this
      simp only [retryGo, h0]
      have hrec := ih (i + 1) m
        (fun j hj => by
          have := ht (j + 1) (Nat.succ_lt_succ hj)
          simpa [Nat.add_comm, Nat.add_assoc, Nat.add_left_comm] using this)
        (by
          have : i + 1 + k = i + (k + 1) := by omega
          rw [this]; exact hs)
        (by omega)
      rw [hrec]
      refine congrArg₂ _ rfl ?_
      push_cast
      ring

lemma retryGo_exhaust (timeout : ℚ) (f : Nat → CallOutcome α)
    (h : ∀ i, f i = CallOutcome.transient) :
    ∀ (n i : Nat), retryGo timeout f i n = ⟨RetryResult.noneSentinel, n, n * timeout⟩ := by
  intro n
  induction n with
  | zero => intro i; simp [retryGo]
  | succ n ih =>
    intro i
    simp only [retryGo, h i, ih (i + 1)]
    refine congrArg₂ _ rfl ?_
    push_cast
    ring

lemma retryGo_fatal (timeout : ℚ) (f : Nat → CallOutcome α) :
    ∀ (k : Nat) (i n : Nat), (∀ j, j < k → f (i + j) = CallOutcome.transient) →
      f (i + k) = CallOutcome.nonTransient → k < n →
      retryGo timeout f i n = ⟨RetryResult.propagated, k + 1, k * timeout⟩ := by
  intro k
  induction k with
  | zero =>
    intro i n _ hs hn
    match n, hn with
    | m + 1, _ =>
      simp only [retryGo]
      rw [show i + 0 = i from rfl] at hs
      rw [hs]
      norm_num
  | succ k ih =>
    intro i n ht hs hn
    match n, hn with
    | m + 1, hn =>
      have h0 : f i = CallOutcome.transient := by
        have := ht 0 (Nat.succ_pos k)
        simpa using this
      simp only [retryGo, h0]
      have hrec := ih (i + 1) m
        (fun j hj => by
          have := ht (j + 1) (Nat.succ_lt_succ hj)
          simpa [Nat.add_comm, Nat.add_assoc, Nat.add_left_comm] using this)
        (by
          have : i + 1 + k = i + (k + 1) := by omega
          rw [this]; exact hs)
        (by omega)
      rw [hrec]
      refine congrArg₂ _ rfl ?_
      push_cast
      ring

lemma orderLoop_head (step : OrderOutcome → ℚ → ℚ) (env : Nat → OrderOutcome)
    (a : ℚ) (i fuel : Nat) (h : 0 < fuel) :
    (orderLoop step env a i fuel).1.head? = some a := by
  match fuel, h with
  | f + 1, _ =>
    rcases he : env i with _ | _ | _ | _ <;> simp [orderLoop, he]

lemma orderLoop_placed (step : OrderOutcome → ℚ → ℚ) (env : Nat → OrderOutcome)
    (a : ℚ) (i fuel : Nat) (h : env i = OrderOutcome.placed) :
    orderLoop step env a i (fuel + 1) = ([a], some a) := by
  simp [orderLoop, h]

lemma orderLoop_cons (step : OrderOutcome → ℚ → ℚ) (env : Nat → OrderOutcome)
    (a : ℚ) (i fuel : Nat) (h : env i ≠ OrderOutcome.placed) :
    orderLoop step env a i (fuel + 1)
      = (a :: (orderLoop step env (step (env i) a) (i + 1) fuel).1,
         (orderLoop step env (step (env i) a) (i + 1) fuel).2) := by
  rcases he : env i with _ | _ | _ | _
  · exact absurd he h
  all_goals simp [orderLoop, he]

lemma orderLoop_fst_cons (step : OrderOutcome → ℚ → ℚ) (env : Nat → OrderOutcome)
    (a : ℚ) (i fuel : Nat) (h : env i ≠ OrderOutcome.placed) :
    (orderLoop step env a i (fuel + 1)).1
      = a :: (orderLoop step env (step (env i) a) (i + 1) fuel).1 := by
  rw [orderLoop_cons step env a i fuel h]

lemma orderLoop_snd_cons (step : OrderOutcome → ℚ → ℚ) (env : Nat → OrderOutcome)
    (a : ℚ) (i fuel : Nat) (h : env i ≠ OrderOutcome.placed) :
    (orderLoop step env a i (fuel + 1)).2
      = (orderLoop step env (step (env i) a) (i + 1) fuel).2 := by
  rw [orderLoop_cons step env a i fuel h]

lemma amountAt_shift (step : OrderOutcome → ℚ → ℚ) (g : Nat → OrderOutcome) (a : ℚ) :
    ∀ j, amountAt step (fun l => g (l + 1)) (step (g 0) a) j = amountAt step g a (j + 1) := by
  intro j
  induction j with
  | zero => rfl
  | succ j ih =>
    show step (g (j + 1)) (amountAt step (fun l => g (l + 1)) (step (g 0) a) j)
      = step (g (j + 1)) (amountAt step g a (j + 1))
    rw [ih]

lemma orderLoop_get (step : OrderOutcome → ℚ → ℚ) (env : Nat → OrderOutcome) :
    ∀ (j : Nat) (a : ℚ) (i fuel : Nat), j < fuel →
      (∀ l, l < j → env (i + l) ≠ OrderOutcome.placed) →
      (orderLoop step env a i fuel).1[j]? = some (amountAt step (fun l => env (i + l)) a j) := by
  intro j
  induction j with
  | zero =>
    intro a i fuel hj _
    match fuel, hj with
    | f + 1, _ =>
      by_cases he : env i = OrderOutcome.placed
      · rw [orderLoop_placed step env a i f he]
        simp [amountAt]
      · rw [orderLoop_fst_cons step env a i f he]
        simp [amountAt]
  | succ j ih =>
    intro a i fuel hj hnp
    match fuel, hj with
    | f + 1, hj =>
      have h0 : env i ≠ OrderOutcome.placed := by
        have := hnp 0 (Nat.succ_pos j)
        simpa using this
      have hshift : ∀ l, l < j → env (i + 1 + l) ≠ OrderOutcome.placed := by
        intro l hl
        have := hnp (l + 1) (Nat.succ_lt_succ hl)
        rwa [show i + (l + 1) = i + 1 + l by omega] at this
      rw [orderLoop_fst_cons step env a i f h0]
      rw [List.getElem?_cons_succ]
      rw [ih (step (env i) a) (i + 1) f (by omega) hshift]
      have key := amountAt_shift step (fun l => env (i + l)) a j
      have hg : (fun l => env (i + (l + 1))) = fun l => env (i + 1 + l) := by
        funext l
        congr 1
        omega
      simp only [hg, show i + 0 = i from rfl] at key
      rw [key]

lemma orderLoop_never_placed (step : OrderOutcome → ℚ → ℚ) (env : Nat → OrderOutcome)
    (h : ∀ i, env i ≠ OrderOutcome.placed) :
    ∀ (fuel : Nat) (a : ℚ) (i : Nat),
      (orderLoop step env a i fuel).2 = none ∧ (orderLoop step env a i fuel).1.length = fuel := by
  intro fuel
  induction fuel with
  | zero => intro a i; exact ⟨rfl, rfl⟩
  | succ f ih =>
    intro a i
    rw [orderLoop_cons step env a i f (h i)]
    refine ⟨(ih (step (env i) a) (i + 1)).1, ?_⟩
    simp [List.length_cons, (ih (step (env i) a) (i + 1)).2]

lemma amountAt_insufficient (env : Nat → OrderOutcome)
    (h : ∀ i, env i = OrderOutcome.insufficientFunds) (a : ℚ) :
    ∀ j, amountAt (buyStepDown true) env a j = a * (99 / 100) ^ j := by
  intro j
  induction j with
  | zero => simp [amountAt]
  | succ j ih =>
    have hstep : amountAt (buyStepDown true) env a (j + 1)
        = buyStepDown true (env j) (amountAt (buyStepDown true) env a j) := rfl
    rw [hstep, h j]
    show amountAt (buyStepDown true) env a j * (99 / 100) = a * (99 / 100) ^ (j + 1)
    rw [ih, pow_succ, mul_assoc]

lemma pumpGo_exit (price st ti : ℚ) (balance : Nat → ℚ) (interrupt : Nat → Bool)
    (sc : ℚ) (n fuel : Nat) (h : ¬ 0 < balance n) :
    pumpGo price st ti balance interrupt sc n (fuel + 1)
      = ([], LoopOutcome.soldEverything) := by
  simp [pumpGo, h]

lemma pumpGo_interrupt (price st ti : ℚ) (balance : Nat → ℚ) (interrupt : Nat → Bool)
    (sc : ℚ) (n fuel : Nat) (hb : 0 < balance n) (hi : interrupt n = true) :
    pumpGo price st ti balance interrupt sc n (fuel + 1)
      = ([pumpCancelAll, pumpMarketSell 100], LoopOutcome.interrupted) := by
  simp [pumpGo, hb, hi]

lemma pumpGo_body (price st ti : ℚ) (balance : Nat → ℚ) (interrupt : Nat → Bool)
    (sc : ℚ) (n fuel : Nat) (hb : 0 < balance n) (hi : interrupt n = false) :
    pumpGo price st ti balance interrupt sc n (fuel + 1)
      = (pumpLimitSell 100 (price * (1 + sc / 100)) :: Action.wait ti :: pumpCancelStep ::
          (pumpGo price st ti balance interrupt (sc - st) (n + 1) fuel).1,
         (pumpGo price st ti balance interrupt (sc - st) (n + 1) fuel).2) := by
  simp [pumpGo, hb, hi]

lemma pumpGo_outcome (price st ti : ℚ) (balance : Nat → ℚ) (interrupt : Nat → Bool) :
    ∀ (fuel n : Nat) (sc : ℚ),
      ((pumpGo price st ti balance interrupt sc n fuel).2 ≠ LoopOutcome.stillRunning
        ↔ ∃ k, k < fuel ∧ (balance (n + k) ≤ 0 ∨ interrupt (n + k) = true)) := by
  intro fuel
  induction fuel with
  | zero =>
    intro n sc
    constructor
    · intro h
      exact absurd rfl h
    · rintro ⟨k, hk, _⟩
      omega
  | succ f ih =>
    intro n sc
    by_cases hb : 0 < balance n
    · by_cases hi : interrupt n = true
      · rw [pumpGo_interrupt price st ti balance interrupt sc n f hb hi]
        constructor
        · intro _
          exact ⟨0, Nat.succ_pos f, Or.inr (by simpa using hi)⟩
        · intro _
          simp
      · have hi' : interrupt n = false := by simpa using hi
        rw [pumpGo_body price st ti balance interrupt sc n f hb hi']
        show (pumpGo price st ti balance interrupt (sc - st) (n + 1) f).2 ≠ _ ↔ _
        rw [ih (n + 1) (sc - st)]
        constructor
        · rintro ⟨k, hk, hP⟩
          refine ⟨k + 1, by omega, ?_⟩
          rwa [show n + (k + 1) = n + 1 + k by omega]
        · rintro ⟨k, hk, hP⟩
          match k with
          | 0 =>
            rw [show n + 0 = n from rfl] at hP
            rcases hP with h | h
            · exact absurd h (not_le.mpr hb)
            · rw [hi'] at h
              exact absurd h (by simp)
          | k + 1 =>
            refine ⟨k, by omega, ?_⟩
            rwa [show n + 1 + k = n + (k + 1) by omega]
    · rw [pumpGo_exit price st ti balance interrupt sc n f hb]
      constructor
      · intro _
        exact ⟨0, Nat.succ_pos f, Or.inl (by rw [show n + 0 = n from rfl]; exact le_of_not_lt hb)⟩
      · intro _
        simp

lemma pumpGo_interrupted_iff (price st ti : ℚ) (balance : Nat → ℚ) (interrupt : Nat → Bool) :
    ∀ (fuel n : Nat) (sc : ℚ),
      ((pumpGo price st ti balance interrupt sc n fuel).2 = LoopOutcome.interrupted
        ↔ ∃ k, k < fuel ∧ interrupt (n + k) = true ∧ (∀ j, j ≤ k → 0 < balance (n + j))
            ∧ (∀ j, j < k → interrupt (n + j) = false)) := by
  intro fuel
  induction fuel with
  | zero =>
    intro n sc
    constructor
    · intro h
      exact absurd h (by simp [pumpGo])
    · rintro ⟨k, hk, _⟩
      omega
  | succ f ih =>
    intro n sc
    by_cases hb : 0 < balance n
    · by_cases hi : interrupt n = true
      · rw [pumpGo_interrupt price st ti balance interrupt sc n f hb hi]
        constructor
        · intro _
          refine ⟨0, Nat.succ_pos f, by simpa using hi, ?_, fun j hj => by omega⟩
          intro j hj
          rw [show j = 0 by omega]
          simpa using hb
        · intro _
          rfl
      · have hi' : interrupt n = false := by simpa using hi
        rw [pumpGo_body price st ti balance interrupt sc n f hb hi']
        show (pumpGo price st ti balance interrupt (sc - st) (n + 1) f).2 = _ ↔ _
        rw [ih (n + 1) (sc - st)]
        constructor
        · rintro ⟨k, hk, hint, hbal, hni⟩
          refine ⟨k + 1, by omega, by rwa [show n + (k + 1) = n + 1 + k by omega], ?_, ?_⟩
          · intro j hj
            match j with
            | 0 => simpa using hb
            | j + 1 =>
              have := hbal j (by omega)
              rwa [show n + (j + 1) = n + 1 + j by omega]
          · intro j hj
            match j with
            | 0 => simpa using hi'
            | j + 1 =>
              have := hni j (by omega)
              rwa [show n + (j + 1) = n + 1 + j by omega]
        · rintro ⟨k, hk, hint, hbal, hni⟩
          match k with
          | 0 =>
            rw [show n + 0 = n from rfl] at hint
            rw [hint] at hi'
            exact absurd hi' (by simp)
          | k + 1 =>
            refine ⟨k, by omega, by rwa [show n + 1 + k = n + (k + 1) by omega], ?_, ?_⟩
            · intro j hj
              have := hbal (j + 1) (by omega)
              rwa [show n + (j + 1) = n + 1 + j by omega] at this
            · intro j hj
              have := hni (j + 1) (by omega)
              rwa [show n + (j + 1) = n + 1 + j by omega] at this
    · rw [pumpGo_exit price st ti balance interrupt sc n f hb]
      constructor
      · intro h
        exact absurd h (by simp)
      · rintro ⟨k, hk, hint, hbal, hni⟩
        have := hbal 0 (Nat.zero_le k)
        rw [show n + 0 = n from rfl] at this
        exact absurd this hb

lemma pumpGo_interrupted_actions (price st ti : ℚ) (balance : Nat → ℚ) (interrupt : Nat → Bool) :
    ∀ (fuel n : Nat) (sc : ℚ),
      (pumpGo price st ti balance interrupt sc n fuel).2 = LoopOutcome.interrupted →
      endsWithInterruptHandler (pumpGo price st ti balance interrupt sc n fuel).1 := by
  intro fuel
  induction fuel with
  | zero =>
    intro n sc h
    exact absurd h (by simp [pumpGo])
  | succ f ih =>
    intro n sc h
    by_cases hb : 0 < balance n
    · by_cases hi : interrupt n = true
      · rw [pumpGo_interrupt price st ti balance interrupt sc n f hb hi]
        exact ⟨[], rfl⟩
      · have hi' : interrupt n = false := by simpa using hi
        rw [pumpGo_body price st ti balance interrupt sc n f hb hi'] at h ⊢
        obtain ⟨pre, hpre⟩ := ih (n + 1) (sc - st) h
        exact ⟨pumpLimitSell 100 (price * (1 + sc / 100)) :: Action.wait ti ::
          pumpCancelStep :: pre, by simp [hpre]⟩
    · rw [pumpGo_exit price st ti balance interrupt sc n f hb] at h
      exact absurd h (by simp)

lemma pumpGo_block (price st ti : ℚ) (balance : Nat → ℚ) (interrupt : Nat → Bool) :
    ∀ (m : Nat) (sc : ℚ) (n fuel : Nat), m < fuel →
      (∀ j, j ≤ m → 0 < balance (n + j) ∧ interrupt (n + j) = false) →
      hasIterationBlock (pumpGo price st ti balance interrupt sc n fuel).1 m
        (price * (1 + (sc - m * st) / 100)) ti := by
  intro m
  induction m with
  | zero =>
    intro sc n fuel hm hc
    match fuel, hm with
    | f + 1, _ =>
      obtain ⟨hb, hi⟩ := hc 0 le_rfl
      rw [show n + 0 = n from rfl] at hb hi
      rw [pumpGo_body price st ti balance interrupt sc n f hb hi]
      refine ⟨[], (pumpGo price st ti balance interrupt (sc - st) (n + 1) f).1, ?_, rfl⟩
      show pumpLimitSell 100 (price * (1 + sc / 100)) :: _ = _
      norm_num
  | succ m ih =>
    intro sc n fuel hm hc
    match fuel, hm with
    | f + 1, hm =>
      obtain ⟨hb, hi⟩ := hc 0 (Nat.zero_le _)
      rw [show n + 0 = n from rfl] at hb hi
      rw [pumpGo_body price st ti balance interrupt sc n f hb hi]
      have hc' : ∀ j, j ≤ m → 0 < balance (n + 1 + j) ∧ interrupt (n + 1 + j) = false := by
        intro j hj
        have := hc (j + 1) (by omega)
        rwa [show n + (j + 1) = n + 1 + j by omega] at this
      obtain ⟨pre, rest, hlist, hlen⟩ := ih (sc - st) (n + 1) f (by omega) hc'
      have harg : sc - st - (m : ℚ) * st = sc - ((m + 1 : Nat) : ℚ) * st := by
        push_cast
        ring
      refine ⟨pumpLimitSell 100 (price * (1 + sc / 100)) :: Action.wait ti ::
        pumpCancelStep :: pre, rest, ?_, ?_⟩
      · show pumpLimitSell 100 (price * (1 + sc / 100)) :: Action.wait ti :: pumpCancelStep ::
          (pumpGo price st ti balance interrupt (sc - st) (n + 1) f).1 = _
        rw [hlist, harg]
        simp
      · simp only [List.length_cons, hlen]
        omega

lemma mem_dropPairAssets {total : List (String × ℚ)} {t : String} {v : ℚ} :
    (t, v) ∈ dropPairAssets total
      ↔ (t, v) ∈ total ∧ t ≠ "ETH" ∧ t ≠ "BTC" ∧ t ≠ "USDT" ∧ t ≠ "BNB" := by
  simp [dropPairAssets, popKey, List.mem_filter]
  tauto

lemma mem_fetch_nonzero_balances {total : List (String × ℚ)} {t : String} :
    t ∈ fetch_nonzero_balances total ↔ ∃ v, (t, v) ∈ dropPairAssets total ∧ 1 ≤ v := by
  simp only [fetch_nonzero_balances, List.mem_map, List.mem_filter]
  constructor
  · rintro ⟨⟨a, b⟩, ⟨hm, hv⟩, rfl⟩
    exact ⟨b, hm, by simpa using hv⟩
  · rintro ⟨v, hm, hv⟩
    exact ⟨(t, v), ⟨hm, by simpa using hv⟩, rfl⟩

lemma mem_find_dust {total : List (String × ℚ)} {t : String} :
    t ∈ find_dust total ↔ ∃ v, (t, v) ∈ dropPairAssets total ∧ v < 1 := by
  simp only [find_dust, List.mem_map, List.mem_filter]
  constructor
  · rintro ⟨⟨a, b⟩, ⟨hm, hv⟩, rfl⟩
    exact ⟨b, hm, by simpa using hv⟩
  · rintro ⟨v, hm, hv⟩
    exact ⟨(t, v), ⟨hm, by simpa using hv⟩, rfl⟩

lemma nodupKeys_val_eq {l : List (String × ℚ)} (h : (l.map Prod.fst).Nodup)
    {a : String} {b c : ℚ} (h1 : (a, b) ∈ l) (h2 : (a, c) ∈ l) : b = c := by
  induction l with
  | nil => cases h1
  | cons x xs ih =>
    simp only [List.map_cons, List.nodup_cons] at h
    rcases List.mem_cons.mp h1 with h1' | h1'
    · rcases List.mem_cons.mp h2 with h2' | h2'
      · simpa using h1'.trans h2'.symm
      · have : a ∈ xs.map Prod.fst := List.mem_map_of_mem Prod.fst h2'
        rw [← h1'] at h
        exact absurd this h.1
    · rcases List.mem_cons.mp h2 with h2' | h2'
      · have : a ∈ xs.map Prod.fst := List.mem_map_of_mem Prod.fst h1'
        rw [← h2'] at h
        exact absurd this h.1
      · exact ih h.2 h1' h2'

-- ===== claims =====

/-- C3: an operation wrapped by `retry_on_exception(timeout, retries)` that
fails transiently exactly `k < retries` times and then succeeds makes the
wrapper return the success value after exactly `k + 1` invocations, having
slept `k * timeout` seconds; an operation that always fails transiently is
invoked exactly `retries` times (default 10), slept on after every failure,
and the wrapper returns the `None` sentinel; a non-transient error is not
caught and propagates on the invocation that raises it. -/
theorem C3_retry_on_exception (timeout : ℚ) (retries k : Nat)
    (f : Nat → CallOutcome α) (v : α) :
    (k < retries → (∀ j, j < k → f j = CallOutcome.transient) →
      f k = CallOutcome.success v →
      retry_on_exception timeout retries f = ⟨RetryResult.value v, k + 1, k * timeout⟩)
    ∧ ((∀ i, f i = CallOutcome.transient) →
      retry_on_exception timeout retries f
        = ⟨RetryResult.noneSentinel, retries, retries * timeout⟩)
    ∧ (k < retries → (∀ j, j < k → f j = CallOutcome.transient) →
      f k = CallOutcome.nonTransient →
      retry_on_exception timeout retries f = ⟨RetryResult.propagated, k + 1, k * timeout⟩) := by
  refine ⟨fun hk ht hs => ?_, fun ht => ?_, fun hk ht hs => ?_⟩
  · exact retryGo_success timeout f v k 0 retries (fun j hj => by simpa using ht j hj)
      (by simpa using hs) hk
  · exact retryGo_exhaust timeout f ht retries 0
  · exact retryGo_fatal timeout f k 0 retries (fun j hj => by simpa using ht j hj)
      (by simpa using hs) hk

/-- Witness for C3 at concrete inputs: a call failing transiently twice and
then returning 7, with the default budget of 10 and timeout 2, yields value 7
after 3 invocations and 4 seconds asleep; an always-failing call exhausts all
10 attempts and yields the sentinel; two transient failures followed by a
non-transient one propagate on the third invocation. -/
theorem C3_retry_on_exception_witness :
    retry_on_exception 2 retry_default_retries
        (fun i => if i < 2 then CallOutcome.transient else CallOutcome.success 7)
      = ⟨RetryResult.value 7, 2 + 1, (2 : Nat) * 2⟩
    ∧ retry_on_exception 2 retry_default_retries (fun _ => (CallOutcome.transient : CallOutcome Nat))
      = ⟨RetryResult.noneSentinel, retry_default_retries, (retry_default_retries : Nat) * 2⟩
    ∧ retry_on_exception 2 retry_default_retries
        (fun i => if i < 2 then CallOutcome.transient else CallOutcome.nonTransient (α := Nat))
      = ⟨RetryResult.propagated, 2 + 1, (2 : Nat) * 2⟩ := by
  refine ⟨?_, ?_, ?_⟩
  · exact (C3_retry_on_exception 2 retry_default_retries 2 _ 7).1 (by decide)
      (fun j hj => by simp [hj]) (by norm_num)
  · exact (C3_retry_on_exception 2 retry_default_retries 2 _ 7).2.1 (fun i => rfl)
  · exact (C3_retry_on_exception 2 retry_default_retries 2
      (fun i => if i < 2 then CallOutcome.transient else CallOutcome.nonTransient (α := Nat)) 7).2.2
      (by decide) (fun j hj => by simp [hj]) (by norm_num)

/-- C4: `buy(ticker, pair_percent, pair, auto_adjust)` computes its initial
order quantity as `floor(balance(pair) * pair_percent/100 / last_price(ticker))`
and submits it with its first market-buy attempt; with balance(ETH)=10,
pair_percent=50 and last price 0.01 that quantity is 500. -/
theorem C4_buy_initial_quantity (pairBalance pair_percent lastPrice : ℚ)
    (env : Nat → OrderOutcome) (auto_adjust : Bool) (fuel : Nat) (h : 0 < fuel) :
    (buy pairBalance pair_percent lastPrice env auto_adjust fuel).1.head?
      = some ((buyAmount pairBalance pair_percent lastPrice : ℤ) : ℚ)
    ∧ buyAmount 10 50 (1 / 100) = 500 :=
  ⟨orderLoop_head _ _ _ _ _ h, by norm_num [buyAmount]⟩

/-- Witness for C4: an immediately-filled buy of 50% of a 10 ETH balance at
last price 0.01 submits quantity 500 first. -/
theorem C4_buy_initial_quantity_witness :
    (buy 10 50 (1 / 100) (fun _ => OrderOutcome.placed) true 1).1.head?
      = some ((buyAmount 10 50 (1 / 100) : ℤ) : ℚ)
    ∧ buyAmount 10 50 (1 / 100) = 500 :=
  C4_buy_initial_quantity 10 50 (1 / 100) (fun _ => OrderOutcome.placed) true 1 (by norm_num)

/-- C5 counterexample: the claim says every quantity submitted, including on a
retry after an auto-adjust step-down, is a floored integer.  But with a
floored initial amount of 7 (balance 7, 100%, price 1), one InsufficientFunds
failure and auto_adjust on, `buy` resubmits 7 * 0.99 = 6.93 without flooring,
and 6.93 is not a whole number. -/
theorem C5_counterexample :
    (buy 7 100 1 (fun i => if i = 0 then OrderOutcome.insufficientFunds else OrderOutcome.placed)
        true 2).1 = [7, 693 / 100]
    ∧ ¬ wholeNumber (693 / 100) := by
  constructor
  · norm_num [buy, orderLoop, buyStepDown, buyAmount]
  · norm_num [wholeNumber]

/-- C5 (amended): the quantities `buy` and `limit_buy` submit on their first
attempt are the floored integers `floor(balance * pct/100 / price)`, and the
quantities `sell` and `limit_sell` submit are the floored integers
`floor(balance * pct/100)`; but a quantity `buy` submits on a retry is the
previous amount times 0.99 when the auto-adjust step-down fired (amount
unchanged otherwise), with no re-flooring, so retried quantities need not be
integers. -/
theorem C5_floor_truncation (pairBalance pair_percent lastPrice price tickerBalance percent : ℚ)
    (env : Nat → OrderOutcome) (auto_adjust : Bool) (fuel j : Nat) :
    (0 < fuel →
      (buy pairBalance pair_percent lastPrice env auto_adjust fuel).1.head?
        = some ((buyAmount pairBalance pair_percent lastPrice : ℤ) : ℚ))
    ∧ (0 < fuel →
      (limit_buy pairBalance pair_percent price env auto_adjust fuel).1.head?
        = some ((buyAmount pairBalance pair_percent price : ℤ) : ℚ))
    ∧ wholeNumber ((buyAmount pairBalance pair_percent lastPrice : ℤ) : ℚ)
    ∧ wholeNumber ((sell_order_amount tickerBalance percent : ℤ) : ℚ)
    ∧ wholeNumber ((limit_sell_order_amount tickerBalance percent : ℤ) : ℚ)
    ∧ (j < fuel → (∀ l, l < j → env l ≠ OrderOutcome.placed) →
      (buy pairBalance pair_percent lastPrice env auto_adjust fuel).1[j]?
        = some (amountAt (buyStepDown auto_adjust) env
            ((buyAmount pairBalance pair_percent lastPrice : ℤ) : ℚ) j))
    ∧ (env j = OrderOutcome.insufficientFunds →
      amountAt (buyStepDown true) env
          ((buyAmount pairBalance pair_percent lastPrice : ℤ) : ℚ) (j + 1)
        = amountAt (buyStepDown true) env
            ((buyAmount pairBalance pair_percent lastPrice : ℤ) : ℚ) j * (99 / 100)) := by
  refine ⟨fun h => orderLoop_head _ _ _ _ _ h, fun h => orderLoop_head _ _ _ _ _ h,
    by simp [wholeNumber], by simp [wholeNumber], by simp [wholeNumber],
    fun hj hnp => ?_, fun hins => ?_⟩
  · have := orderLoop_get (buyStepDown auto_adjust) env j
      ((buyAmount pairBalance pair_percent lastPrice : ℤ) : ℚ) 0 fuel hj
      (fun l hl => by simpa using hnp l hl)
    simpa using this
  · have hstep : amountAt (buyStepDown true) env
        ((buyAmount pairBalance pair_percent lastPrice : ℤ) : ℚ) (j + 1)
        = buyStepDown true (env j)
            (amountAt (buyStepDown true) env
              ((buyAmount pairBalance pair_percent lastPrice : ℤ) : ℚ) j) := rfl
    rw [hstep, hins]
    rfl

/-- Witness for C5 (amended) at concrete inputs: balance 7, 100%, price 1,
one InsufficientFunds failure then a fill, auto_adjust on, two attempts. -/
theorem C5_floor_truncation_witness :
    (buy 7 100 1 (fun i => if i = 0 then OrderOutcome.insufficientFunds else OrderOutcome.placed)
        true 2).1.head? = some ((buyAmount 7 100 1 : ℤ) : ℚ)
    ∧ (limit_buy 7 100 1
        (fun i => if i = 0 then OrderOutcome.insufficientFunds else OrderOutcome.placed)
        true 2).1.head? = some ((buyAmount 7 100 1 : ℤ) : ℚ)
    ∧ wholeNumber ((buyAmount 7 100 1 : ℤ) : ℚ)
    ∧ wholeNumber ((sell_order_amount (5 / 2) 100 : ℤ) : ℚ)
    ∧ wholeNumber ((limit_sell_order_amount (5 / 2) 100 : ℤ) : ℚ)
    ∧ (buy 7 100 1 (fun i => if i = 0 then OrderOutcome.insufficientFunds else OrderOutcome.placed)
        true 2).1[1]?
      = some (amountAt (buyStepDown true)
          (fun i => if i = 0 then OrderOutcome.insufficientFunds else OrderOutcome.placed)
          ((buyAmount 7 100 1 : ℤ) : ℚ) 1)
    ∧ amountAt (buyStepDown true)
          (fun i => if i = 0 then OrderOutcome.insufficientFunds else OrderOutcome.placed)
          ((buyAmount 7 100 1 : ℤ) : ℚ) (0 + 1)
        = amountAt (buyStepDown true)
            (fun i => if i = 0 then OrderOutcome.insufficientFunds else OrderOutcome.placed)
            ((buyAmount 7 100 1 : ℤ) : ℚ) 0 * (99 / 100) := by
  refine ⟨?_, ?_, ?_, ?_, ?_, ?_, ?_⟩
  · exact (C5_floor_truncation 7 100 1 1 (5 / 2) 100 _ true 2 1).1 (by norm_num)
  · exact (C5_floor_truncation 7 100 1 1 (5 / 2) 100 _ true 2 1).2.1 (by norm_num)
  · exact (C5_floor_truncation 7 100 1 1 (5 / 2) 100
      (fun i => if i = 0 then OrderOutcome.insufficientFunds else OrderOutcome.placed)
      true 2 1).2.2.1
  · exact (C5_floor_truncation 7 100 1 1 (5 / 2) 100
      (fun i => if i = 0 then OrderOutcome.insufficientFunds else OrderOutcome.placed)
      true 2 1).2.2.2.1
  · exact (C5_floor_truncation 7 100 1 1 (5 / 2) 100
      (fun i => if i = 0 then OrderOutcome.insufficientFunds else OrderOutcome.placed)
      true 2 1).2.2.2.2.1
  · exact (C5_floor_truncation 7 100 1 1 (5 / 2) 100 _ true 2 1).2.2.2.2.2.1 (by norm_num)
      (fun l hl => by
        have : l = 0 := by omega
        subst this
        simp)
  · exact (C5_floor_truncation 7 100 1 1 (5 / 2) 100 _ true 2 0).2.2.2.2.2.2 (by simp)

/-- C6: when every market-buy attempt raises InsufficientFunds and auto_adjust
is set, `buy` never terminates: for any number of attempts examined it is
still retrying (no order result), it has used every attempt, and the amount
before attempt `j` has been stepped down to the initial floored amount times
0.99^j. -/
theorem C6_insufficient_funds_loop (pairBalance pair_percent lastPrice : ℚ)
    (env : Nat → OrderOutcome) (h : ∀ i, env i = OrderOutcome.insufficientFunds) (fuel : Nat) :
    (buy pairBalance pair_percent lastPrice env true fuel).2 = none
    ∧ (buy pairBalance pair_percent lastPrice env true fuel).1.length = fuel
    ∧ ∀ j, amountAt (buyStepDown true) env
        ((buyAmount pairBalance pair_percent lastPrice : ℤ) : ℚ) j
        = ((buyAmount pairBalance pair_percent lastPrice : ℤ) : ℚ) * (99 / 100) ^ j := by
  have hnp : ∀ i, env i ≠ OrderOutcome.placed := by
    intro i hc
    rw [h i] at hc
    exact OrderOutcome.noConfusion hc
  exact ⟨(orderLoop_never_placed _ env hnp fuel _ 0).1,
    (orderLoop_never_placed _ env hnp fuel _ 0).2,
    amountAt_insufficient env h _⟩

/-- Witness for C6: with a permanently insufficient balance, five attempts in
`buy` is still looping, submitted five stepped-down amounts, and the amount
before attempt 3 is 500 * 0.99^3. -/
theorem C6_insufficient_funds_loop_witness :
    (buy 10 50 (1 / 100) (fun _ => OrderOutcome.insufficientFunds) true 5).2 = none
    ∧ (buy 10 50 (1 / 100) (fun _ => OrderOutcome.insufficientFunds) true 5).1.length = 5
    ∧ amountAt (buyStepDown true) (fun _ => OrderOutcome.insufficientFunds)
        ((buyAmount 10 50 (1 / 100) : ℤ) : ℚ) 3
        = ((buyAmount 10 50 (1 / 100) : ℤ) : ℚ) * (99 / 100) ^ 3 :=
  ⟨(C6_insufficient_funds_loop 10 50 (1 / 100) _ (fun _ => rfl) 5).1,
   (C6_insufficient_funds_loop 10 50 (1 / 100) _ (fun _ => rfl) 5).2.1,
   (C6_insufficient_funds_loop 10 50 (1 / 100) _ (fun _ => rfl) 5).2.2 3⟩

/-- C1 counterexample: the claim quantifies over all `step_change`, but with
step_change = 0 (and sell_percent = 5, change_before = 2) the `sell_change`
sequence is constant at 7 — not strictly decreasing — and two successive
cycles place their limit sells at the same price. -/
theorem C1_counterexample :
    sellChangeAt 5 2 0 1 = sellChangeAt 5 2 0 0
    ∧ ¬ (sellChangeAt 5 2 0 1 < sellChangeAt 5 2 0 0)
    ∧ (pumpLoop 1 5 2 0 30 (fun _ => 1) (fun _ => false) 2).1
      = [pumpLimitSell 100 (107 / 100), Action.wait 30, pumpCancelStep,
         pumpLimitSell 100 (107 / 100), Action.wait 30, pumpCancelStep] := by
  refine ⟨by norm_num [sellChangeAt], by norm_num [sellChangeAt], ?_⟩
  norm_num [pumpLoop, pumpGo]

/-- C1 (amended): the sequence of `sell_change` values starts at
`sell_percent + change_before` and decreases by exactly `step_change` per
cycle, and iteration `n` of the staged loop prices its limit sell at
`price * (1 + sell_change_n / 100)`; the sequence is strictly decreasing
whenever `step_change > 0` (not for `step_change ≤ 0`); with change_before=2,
sell_percent=5, step_change=1 the successive targets are 7%, 6% and 5% above
the entry price. -/
theorem C1_sell_change_sequence (price sell_percent change_before step_change time_interval : ℚ)
    (balance : Nat → ℚ) (interrupt : Nat → Bool) (m n fuel : Nat) :
    sellChangeAt sell_percent change_before step_change 0 = sell_percent + change_before
    ∧ sellChangeAt sell_percent change_before step_change (n + 1)
        = sellChangeAt sell_percent change_before step_change n - step_change
    ∧ (0 < step_change → m < n →
        sellChangeAt sell_percent change_before step_change n
          < sellChangeAt sell_percent change_before step_change m)
    ∧ (n < fuel → (∀ j, j ≤ n → 0 < balance j ∧ interrupt j = false) →
        hasIterationBlock
          (pumpLoop price sell_percent change_before step_change time_interval
            balance interrupt fuel).1 n
          (price * (1 + sellChangeAt sell_percent change_before step_change n / 100))
          time_interval)
    ∧ sellChangeAt 5 2 1 0 = 7 ∧ sellChangeAt 5 2 1 1 = 6 ∧ sellChangeAt 5 2 1 2 = 5 := by
  refine ⟨by simp [sellChangeAt], ?_, ?_, ?_, by norm_num [sellChangeAt],
    by norm_num [sellChangeAt], by norm_num [sellChangeAt]⟩
  · simp only [sellChangeAt]
    push_cast
    ring
  · intro hst hmn
    simp only [sellChangeAt]
    have hq : (m : ℚ) < n := by exact_mod_cast hmn
    have := mul_lt_mul_of_pos_right hq hst
    linarith
  · intro hn hcond
    have := pumpGo_block price step_change time_interval balance interrupt n
      (sell_percent + change_before) 0 fuel hn (fun j hj => by simpa using hcond j hj)
    simpa [pumpLoop, sellChangeAt] using this

/-- Witness for C1 (amended): with entry price 1, sell_percent 5,
change_before 2, step_change 1, interval 30, a unit balance and no
interrupt, the sequence strictly decreases from one cycle to the next and
iteration 1 prices its limit sell from sell_change value 6. -/
theorem C1_sell_change_sequence_witness :
    sellChangeAt 5 2 1 1 < sellChangeAt 5 2 1 0
    ∧ hasIterationBlock
        (pumpLoop 1 5 2 1 30 (fun _ => 1) (fun _ => false) 3).1 1
        (1 * (1 + sellChangeAt 5 2 1 1 / 100)) 30 := by
  constructor
  · exact (C1_sell_change_sequence 1 5 2 1 30 (fun _ => 1) (fun _ => false) 0 1 3).2.2.1
      (by norm_num) (by norm_num)
  · exact (C1_sell_change_sequence 1 5 2 1 30 (fun _ => 1) (fun _ => false) 0 1 3).2.2.2.1
      (by norm_num) (fun j hj => ⟨by norm_num, rfl⟩)

/-- C2: the staged-selling loop reaches a terminal state within the examined
iterations iff some condition check sees a non-positive remaining balance or
an interrupt arrives during some earlier-or-equal iteration; when the
balance stays positive forever and no interrupt ever arrives, the loop is
still running after any number of iterations. -/
theorem C2_loop_termination (price sell_percent change_before step_change time_interval : ℚ)
    (balance : Nat → ℚ) (interrupt : Nat → Bool) (fuel : Nat) :
    ((pumpLoop price sell_percent change_before step_change time_interval
        balance interrupt fuel).2 ≠ LoopOutcome.stillRunning
      ↔ ∃ k, k < fuel ∧ (balance k ≤ 0 ∨ interrupt k = true))
    ∧ ((∀ k, 0 < balance k ∧ interrupt k = false) →
      (pumpLoop price sell_percent change_before step_change time_interval
        balance interrupt fuel).2 = LoopOutcome.stillRunning) := by
  simp only [pumpLoop]
  have hiff := pumpGo_outcome price step_change time_interval balance interrupt fuel 0
    (sell_percent + change_before)
  simp only [Nat.zero_add] at hiff
  refine ⟨hiff, ?_⟩
  intro h
  by_contra hc
  obtain ⟨k, _, hP⟩ := hiff.mp hc
  rcases hP with hP | hP
  · exact absurd hP (not_le.mpr (h k).1)
  · rw [(h k).2] at hP
    exact absurd hP (by simp)

/-- Witness for C2: a balance that reaches zero at the third check makes the
loop terminate, while a balance fixed at 1 with no interrupt leaves the loop
still running after four examined iterations. -/
theorem C2_loop_termination_witness :
    ((pumpLoop 1 5 2 1 30 (fun k => if k < 2 then (1 : ℚ) else 0) (fun _ => false) 5).2
      ≠ LoopOutcome.stillRunning)
    ∧ (pumpLoop 1 5 2 1 30 (fun _ => (1 : ℚ)) (fun _ => false) 4).2
        = LoopOutcome.stillRunning := by
  constructor
  · exact (C2_loop_termination 1 5 2 1 30 (fun k => if k < 2 then (1 : ℚ) else 0)
      (fun _ => false) 5).1.mpr ⟨2, by norm_num, Or.inl (by norm_num)⟩
  · exact (C2_loop_termination 1 5 2 1 30 (fun _ => (1 : ℚ)) (fun _ => false) 4).2
      (fun k => ⟨by norm_num, rfl⟩)

/-- C7: the staged loop ends in the interrupted state exactly when an
interrupt arrives during an iteration all of whose condition checks so far
saw a positive balance and no earlier iteration was interrupted — the
interrupt is the only trigger of this graceful-shutdown path — and in that
case the trace ends with the handler of src/pump.py lines 41-46: cancel all
the ticker's open orders, then one market sell of 100% of the remaining
balance, after which the loop terminates. -/
theorem C7_interrupt_path (price sell_percent change_before step_change time_interval : ℚ)
    (balance : Nat → ℚ) (interrupt : Nat → Bool) (fuel : Nat) :
    ((pumpLoop price sell_percent change_before step_change time_interval
        balance interrupt fuel).2 = LoopOutcome.interrupted
      ↔ ∃ k, k < fuel ∧ interrupt k = true ∧ (∀ j, j ≤ k → 0 < balance j)
          ∧ (∀ j, j < k → interrupt j = false))
    ∧ ((pumpLoop price sell_percent change_before step_change time_interval
        balance interrupt fuel).2 = LoopOutcome.interrupted →
      endsWithInterruptHandler
        (pumpLoop price sell_percent change_before step_change time_interval
          balance interrupt fuel).1) := by
  simp only [pumpLoop]
  have hiff := pumpGo_interrupted_iff price step_change time_interval balance interrupt fuel 0
    (sell_percent + change_before)
  simp only [Nat.zero_add] at hiff
  exact ⟨hiff, fun h => pumpGo_interrupted_actions price step_change time_interval balance
    interrupt fuel 0 (sell_percent + change_before) h⟩

/-- Witness for C7: an interrupt during iteration 1 with a positive balance
makes the loop end interrupted with the cancel-then-market-sell handler at
the end of its trace. -/
theorem C7_interrupt_path_witness :
    (pumpLoop 1 5 2 1 30 (fun _ => (1 : ℚ)) (fun n => n == 1) 3).2 = LoopOutcome.interrupted
    ∧ endsWithInterruptHandler
        (pumpLoop 1 5 2 1 30 (fun _ => (1 : ℚ)) (fun n => n == 1) 3).1 := by
  have h := (C7_interrupt_path 1 5 2 1 30 (fun _ => (1 : ℚ)) (fun n => n == 1) 3).1.mpr
    ⟨1, by norm_num, rfl, fun j hj => by norm_num,
     fun j hj => by rw [show j = 0 by omega]; rfl⟩
  exact ⟨h, (C7_interrupt_path 1 5 2 1 30 (fun _ => (1 : ℚ)) (fun n => n == 1) 3).2 h⟩

/-- C8: iteration `n` of the HOLDING_AND_SELLING loop — reached when every
balance check up to `n` was positive and no interrupt had arrived —
contributes exactly three actions as the `n`-th three-action group of the
trace: a limit sell for 100% of the current balance at
`entry_price * (1 + sell_change_n / 100)`, a sleep of `time_interval`
seconds, and the cancellation of the just-placed sell order, filled or not. -/
theorem C8_iteration_shape (price sell_percent change_before step_change time_interval : ℚ)
    (balance : Nat → ℚ) (interrupt : Nat → Bool) (n fuel : Nat) (hn : n < fuel)
    (hrun : ∀ j, j ≤ n → 0 < balance j ∧ interrupt j = false) :
    hasIterationBlock
      (pumpLoop price sell_percent change_before step_change time_interval
        balance interrupt fuel).1 n
      (price * (1 + sellChangeAt sell_percent change_before step_change n / 100))
      time_interval := by
  have := pumpGo_block price step_change time_interval balance interrupt n
    (sell_percent + change_before) 0 fuel hn (fun j hj => by simpa using hrun j hj)
  simpa [pumpLoop, sellChangeAt] using this

/-- Witness for C8: with a unit balance and no interrupt, iteration 2 of the
loop places, waits and cancels a limit sell priced from sell_change value 5. -/
theorem C8_iteration_shape_witness :
    hasIterationBlock (pumpLoop 1 5 2 1 30 (fun _ => (1 : ℚ)) (fun _ => false) 3).1 2
      (1 * (1 + sellChangeAt 5 2 1 2 / 100)) 30 :=
  C8_iteration_shape 1 5 2 1 30 (fun _ => (1 : ℚ)) (fun _ => false) 2 3 (by norm_num)
    (fun j hj => ⟨by norm_num, rfl⟩)

/-- C9: over a total-balance mapping with distinct keys, every present asset
other than ETH, BTC, USDT and BNB is returned by exactly one of
`fetch_nonzero_balances` (when its total balance is at least 1) and
`find_dust` (when it is below 1), and the four excluded assets are returned
by neither. -/
theorem C9_balances_partition (total : List (String × ℚ)) (t : String)
    (hnd : (total.map Prod.fst).Nodup)
    (ht : t ≠ "ETH" ∧ t ≠ "BTC" ∧ t ≠ "USDT" ∧ t ≠ "BNB")
    (hmem : t ∈ total.map Prod.fst) :
    ((t ∈ fetch_nonzero_balances total ∧ t ∉ find_dust total)
      ∨ (t ∉ fetch_nonzero_balances total ∧ t ∈ find_dust total))
    ∧ (∀ x, x = "ETH" ∨ x = "BTC" ∨ x = "USDT" ∨ x = "BNB" →
        x ∉ fetch_nonzero_balances total ∧ x ∉ find_dust total) := by
  constructor
  · obtain ⟨⟨t', v⟩, hin, hfst⟩ := List.mem_map.mp hmem
    have ht' : t' = t := hfst
    subst ht'
    have hdrop : (t', v) ∈ dropPairAssets total :=
      mem_dropPairAssets.mpr ⟨hin, ht.1, ht.2.1, ht.2.2.1, ht.2.2.2⟩
    have huniq : ∀ w, (t', w) ∈ dropPairAssets total → w = v := by
      intro w hw
      exact nodupKeys_val_eq hnd (mem_dropPairAssets.mp hw).1 hin
    by_cases hv : 1 ≤ v
    · refine Or.inl ⟨mem_fetch_nonzero_balances.mpr ⟨v, hdrop, hv⟩, ?_⟩
      intro hdust
      obtain ⟨w, hw, hwlt⟩ := mem_find_dust.mp hdust
      rw [huniq w hw] at hwlt
      linarith
    · refine Or.inr ⟨?_, mem_find_dust.mpr ⟨v, hdrop, not_le.mp hv⟩⟩
      intro hnz
      obtain ⟨w, hw, hwge⟩ := mem_fetch_nonzero_balances.mp hnz
      rw [huniq w hw] at hwge
      exact hv hwge
  · intro x hx
    constructor
    · intro hmem'
      obtain ⟨v, hdrop, _⟩ := mem_fetch_nonzero_balances.mp hmem'
      obtain ⟨_, h1, h2, h3, h4⟩ := mem_dropPairAssets.mp hdrop
      rcases hx with rfl | rfl | rfl | rfl
      · exact h1 rfl
      · exact h2 rfl
      · exact h3 rfl
      · exact h4 rfl
    · intro hmem'
      obtain ⟨v, hdrop, _⟩ := mem_find_dust.mp hmem'
      obtain ⟨_, h1, h2, h3, h4⟩ := mem_dropPairAssets.mp hdrop
      rcases hx with rfl | rfl | rfl | rfl
      · exact h1 rfl
      · exact h2 rfl
      · exact h3 rfl
      · exact h4 rfl

/-- Witness for C9: in an account with ETH 3, TRX 2.5 and ADA 0.5, TRX goes
to exactly one of the two lists, and ETH to neither. -/
theorem C9_balances_partition_witness :
    ((("TRX" : String) ∈ fetch_nonzero_balances [("ETH", 3), ("TRX", 5 / 2), ("ADA", 1 / 2)]
        ∧ ("TRX" : String) ∉ find_dust [("ETH", 3), ("TRX", 5 / 2), ("ADA", 1 / 2)])
      ∨ (("TRX" : String) ∉ fetch_nonzero_balances [("ETH", 3), ("TRX", 5 / 2), ("ADA", 1 / 2)]
        ∧ ("TRX" : String) ∈ find_dust [("ETH", 3), ("TRX", 5 / 2), ("ADA", 1 / 2)]))
    ∧ (("ETH" : String) ∉ fetch_nonzero_balances [("ETH", 3), ("TRX", 5 / 2), ("ADA", 1 / 2)]
        ∧ ("ETH" : String) ∉ find_dust [("ETH", 3), ("TRX", 5 / 2), ("ADA", 1 / 2)]) := by
  have h := C9_balances_partition [("ETH", 3), ("TRX", 5 / 2), ("ADA", 1 / 2)] "TRX"
    (by decide) (by decide) (by decide)
  exact ⟨h.1, h.2 "ETH" (Or.inl rfl)⟩

/-- C10: `buy_tickers(tickers, pair)` buys every listed ticker at the equal
share `pair_percent = 100 / len(tickers)` of the pair balance; for the empty
list the division `100 / len(tickers)` is unguarded, so this public entry
point raises ZeroDivisionError. -/
theorem C10_buy_tickers (tickers : List String) (pairBalance : ℚ)
    (lastPrice : String → ℚ) (h : tickers ≠ []) :
    buy_tickers tickers pairBalance lastPrice
      = Except.ok (tickers.map fun t =>
          (t, buyAmount pairBalance (100 / (tickers.length : ℚ)) (lastPrice t)))
    ∧ buy_tickers [] pairBalance lastPrice = Except.error PyError.zeroDivisionError := by
  constructor
  · have hlen : (tickers.length : ℚ) ≠ 0 :=
      Nat.cast_ne_zero.mpr (fun hl => h (List.length_eq_zero.mp hl))
    simp [buy_tickers, pyDiv, hlen]
  · simp [buy_tickers, pyDiv]

/-- Witness for C10: buying TRX and ADA splits the balance 50/50, and the
empty call raises. -/
theorem C10_buy_tickers_witness :
    buy_tickers ["TRX", "ADA"] 10 (fun _ => 1 / 100)
      = Except.ok ((["TRX", "ADA"] : List String).map fun t =>
          (t, buyAmount 10 (100 / (((["TRX", "ADA"] : List String).length : Nat) : ℚ))
            ((fun _ => (1 / 100 : ℚ)) t)))
    ∧ buy_tickers [] 10 (fun _ => (1 / 100 : ℚ)) = Except.error PyError.zeroDivisionError :=
  C10_buy_tickers ["TRX", "ADA"] 10 (fun _ => 1 / 100) (by simp)

end Cryptobot
